import Mathlib

/-!
Shallow embedding of the core pipeline of `WebArchive.py`:
domain validation, archive fetch with retry, subdomain extraction,
DNS validation and the filter engine.  External effects (HTTP, DNS,
the clock) are passed in as explicit oracles; each definition mirrors
the corresponding Python function, and instrumented results (attempt
counts, sleep logs) make the control flow of the retry decorator
visible to the theorems.
-/

namespace WebArchive

/-- Model of Python `str.lower()` restricted to ASCII, the alphabet the
pipeline works over: each character is mapped by `Char.toLower`, which
lowers exactly the basic latin letters `A`-`Z`. -/
def py_lower (s : String) : String :=
  ⟨s.data.map Char.toLower⟩

/-- ASCII uppercase test (code points 65-90), matching the guard used by
`Char.toLower`. -/
def upper_ascii (c : Char) : Bool :=
  decide (65 ≤ c.toNat ∧ c.toNat ≤ 90)

/-- Characters matched by the regex class `[a-zA-Z0-9]` of
`validate_domain`. -/
def domain_alnum (c : Char) : Bool :=
  c.isAlpha || c.isDigit

/-- Splits a list of characters at every dot, mirroring how the anchored
regex `^L(\.L)*$` decomposes its subject into dot-separated labels. -/
def split_dots : List Char → List (List Char)
  | [] => [[]]
  | '.' :: rest => [] :: split_dots rest
  | c :: rest =>
    match split_dots rest with
    | [] => [[c]]
    | l :: ls => (c :: l) :: ls

/-- Language of one label of the `validate_domain` regex,
`[a-zA-Z0-9]([a-zA-Z0-9\-]{0,61}[a-zA-Z0-9])?`: one alphanumeric
character, or 2 to 63 characters that start and end alphanumeric with
alphanumerics and hyphens in between. -/
def label_ok : List Char → Bool
  | [] => false
  | c :: rest =>
    domain_alnum c &&
      match rest with
      | [] => true
      | _ :: _ =>
        decide (rest.length ≤ 62) &&
          rest.dropLast.all (fun d => domain_alnum d || d == '-') &&
          domain_alnum (rest.getLastD '-')

/-- Language of the full regex of `validate_domain` (without the `$`
trailing-newline allowance): one or more valid labels separated by
dots. -/
def domain_grammar (cs : List Char) : Bool :=
  (split_dots cs).all label_ok

/-- Python `re.match(pattern, s)` with a pattern anchored by `^...$`:
the pattern must match the whole string, or the whole string minus a
single trailing newline, because `$` also matches just before a final
`"\n"`. -/
def domain_re_match (cs : List Char) : Bool :=
  domain_grammar cs ||
    (!cs.isEmpty && (cs.getLastD ' ' == '\n') && domain_grammar cs.dropLast)

/-- Embedding of `validate_domain`: raises `ValueError` (modelled as
`Except.error` carrying the offending string) when the regex does not
match, and otherwise returns `domain.lower()`. -/
def validate_domain (domain : String) : Except String String :=
  if domain_re_match domain.data then Except.ok (py_lower domain)
  else Except.error domain

/-- Characters allowed in a URL scheme by `urllib.parse`
(`scheme_chars`): ASCII letters, digits, `+`, `-` and `.`. -/
def scheme_char (c : Char) : Bool :=
  c.isAlpha || c.isDigit || c == '+' || c == '-' || c == '.'

/-- The scheme-splitting step of `urllib.parse.urlsplit`: if the first
colon is preceded by a non-empty prefix that starts with an ASCII
letter and consists of scheme characters, everything up to and
including that colon is removed. -/
def drop_scheme (cs : List Char) : List Char :=
  match cs.findIdx? (fun c => c == ':') with
  | none => cs
  | some i =>
    if 0 < i ∧ (cs.headD ' ').isAlpha ∧ (cs.take i).all scheme_char then
      cs.drop (i + 1)
    else cs

/-- The netloc computation of `urllib.parse.urlsplit`: tab, carriage
return and newline are removed from the URL, the scheme is split off,
and when the remainder starts with `//` the netloc runs up to the first
`/`, `?` or `#`.  A netloc with unbalanced square brackets raises
`ValueError` (modelled as `Except.error`); a URL with no `//` has an
empty netloc. -/
def urlsplit_netloc (url : List Char) : Except Unit (List Char) :=
  let cs := url.filter (fun c => !(c == '\t' || c == '\r' || c == '\n'))
  let rest := drop_scheme cs
  if rest.take 2 = ['/', '/'] then
    let netloc := (rest.drop 2).takeWhile (fun c => !(c == '/' || c == '?' || c == '#'))
    if (netloc.contains '[' && !netloc.contains ']') ||
        (netloc.contains ']' && !netloc.contains '[') then Except.error ()
    else Except.ok netloc
  else Except.ok []

/-- One loop iteration of `extract_subdomains` for a single record:
parse the URL (a parse error is absorbed by the `except` branch), take
`parsed.netloc.split(":")[0]`, and keep the result when it is non-empty
and contains a dot. -/
def hostname_of (url : String) : Option String :=
  match urlsplit_netloc url.data with
  | Except.error _ => none
  | Except.ok netloc =>
    let hostname := netloc.takeWhile (fun c => !(c == ':'))
    if hostname ≠ [] ∧ '.' ∈ hostname then some (String.mk hostname) else none

/-- The `subdomains.add(hostname)` step: the accumulator models the
Python `set` as a duplicate-free list in insertion order. -/
def extract_step (acc : List String) (url : String) : List String :=
  match hostname_of url with
  | none => acc
  | some h => if h ∈ acc then acc else acc ++ [h]

/-- Lexicographic comparison of character lists by Unicode code point,
the order Python string comparison uses: the first position where the
code points differ decides, and a proper prefix is smaller. -/
def chars_le : List Char → List Char → Bool
  | [], _ => true
  | _ :: _, [] => false
  | a :: as, b :: bs =>
    if a.toNat < b.toNat then true
    else if b.toNat < a.toNat then false
    else chars_le as bs

/-- Python `a <= b` on strings: lexicographic by code point. -/
def str_le (a b : String) : Bool :=
  chars_le a.data b.data

/-- Insertion of one string into a list sorted by `str_le`. -/
def ordered_insert (a : String) : List String → List String
  | [] => [a]
  | b :: l => if str_le a b then a :: b :: l else b :: ordered_insert a l

/-- Model of Python `sorted` on a list of strings: insertion sort by the
lexicographic order `str_le`. -/
def sort_strings : List String → List String
  | [] => []
  | a :: l => ordered_insert a (sort_strings l)

/-- Embedding of `extract_subdomains`: accumulate the hostnames of all
records into a set and return `sorted(subdomains)`. -/
def extract_subdomains (urls : List String) : List String :=
  sort_strings (urls.foldl extract_step [])

/-- The `filters` dictionary of `filter_subdomains`: each key is
independently optional.  `min_length` and `max_length` are Python ints;
`exclude_words` is the word list; `regex` is the raw pattern string.
`none` models an absent key (the falsy `filters.get(...)` for `None`). -/
structure FilterSpec where
  regex : Option String
  min_length : Option Int
  max_length : Option Int
  exclude_words : Option (List String)

/-- Python `word in text`: `word` occurs as a contiguous substring of
`text`. -/
def str_in (word text : List Char) : Bool :=
  decide (word <:+: text)

/-- The regex `continue` of the filter loop: fires when
`filters.get('regex')` is truthy (present and non-empty) and
`re.search` finds no match.  `re_search` is the oracle standing for the
`re` library. -/
def regex_blocks (re_search : String → String → Bool) (f : FilterSpec)
    (s : String) : Bool :=
  match f.regex with
  | none => false
  | some p => !(p == "") && !(re_search p s)

/-- The `min_length` `continue` of the filter loop: fires when
`filters.get('min_length')` is truthy (present and non-zero) and the
hostname is shorter. -/
def min_blocks (f : FilterSpec) (s : String) : Bool :=
  match f.min_length with
  | none => false
  | some n => !(n == 0) && decide ((s.length : Int) < n)

/-- The `max_length` `continue` of the filter loop: fires when
`filters.get('max_length')` is truthy (present and non-zero) and the
hostname is longer. -/
def max_blocks (f : FilterSpec) (s : String) : Bool :=
  match f.max_length with
  | none => false
  | some n => !(n == 0) && decide (n < (s.length : Int))

/-- The word-exclusion `continue` of the filter loop: fires when
`filters.get('exclude_words')` is truthy (present and non-empty) and
some word occurs verbatim in `subdomain.lower()`. -/
def exclude_blocks (f : FilterSpec) (s : String) : Bool :=
  match f.exclude_words with
  | none => false
  | some ws => !ws.isEmpty && ws.any (fun w => str_in w.data (py_lower s).data)

/-- A subdomain survives the loop body of `filter_subdomains` iff no
`continue` fires. -/
def passes (re_search : String → String → Bool) (f : FilterSpec)
    (s : String) : Bool :=
  !(regex_blocks re_search f s) && !(min_blocks f s) &&
    !(max_blocks f s) && !(exclude_blocks f s)

/-- Embedding of `filter_subdomains`: `None` or an empty dict is falsy
and returns the input list unchanged; otherwise the loop keeps, in
order, exactly the subdomains for which no filter fires. -/
def filter_subdomains (re_search : String → String → Bool)
    (subdomains : List String) (filters : Option FilterSpec) : List String :=
  match filters with
  | none => subdomains
  | some f => subdomains.filter (passes re_search f)

/-- Query parameters built by `fetch_data_with_progress`. -/
structure Params where
  url : String
  output : String
  fl : String
  collapse : String
  limit : Nat

/-- The configuration dictionary of `load_config` (the fields the fetch
stage reads, plus the retry settings it conspicuously does not). -/
structure Config where
  api_url : String
  collapse : String
  max_results : Nat
  timeout : Nat
  max_retries : Nat
  retry_delay : Nat
  user_agent : String

/-- The full request issued by one fetch attempt: endpoint, query
parameters, `User-Agent` header, timeout. -/
structure Request where
  api_url : String
  params : Params
  user_agent : String
  timeout : Nat

/-- The request construction at the top of `fetch_data_with_progress`. -/
def build_request (domain : String) (config : Config) : Request :=
  ⟨config.api_url,
    ⟨"*." ++ domain ++ "/*", "txt", "original", config.collapse, config.max_results⟩,
    config.user_agent, config.timeout⟩

/-- Python `str.splitlines` for the line terminators `\n`, `\r` and
`\r\n`: the empty string yields no lines, and a trailing terminator
does not produce an extra empty line. -/
def py_splitlines : List Char → List (List Char)
  | [] => []
  | '\n' :: rest => [] :: py_splitlines rest
  | '\r' :: '\n' :: rest => [] :: py_splitlines rest
  | '\r' :: rest => [] :: py_splitlines rest
  | c :: rest =>
    match py_splitlines rest with
    | [] => [[c]]
    | l :: ls => (c :: l) :: ls

/-- Python `str.strip()` on the whitespace the responses contain:
leading and trailing whitespace characters are removed. -/
def py_strip (cs : List Char) : List Char :=
  ((cs.dropWhile Char.isWhitespace).reverse.dropWhile Char.isWhitespace).reverse

/-- The body of one attempt of `fetch_data_with_progress`: the HTTP
oracle `http` yields either a transport failure (connection error,
timeout or non-2xx status, re-raised by the `except` clause) or the
response text, whose non-empty stripped lines become the records.  The
two `requests.get` calls of an attempt (the line-counting pass and the
real pass) are modelled by one oracle call giving the attempt's
outcome. -/
def fetch_body {E : Type} (http : Request → Nat → Except E String)
    (req : Request) (attempt : Nat) : Except E (List String) :=
  match http req attempt with
  | Except.error e => Except.error e
  | Except.ok text =>
    Except.ok
      ((((py_splitlines text.data).map py_strip).filter (fun l => !l.isEmpty)).map
        String.mk)

/-- The loop of the `retry_on_failure` wrapper, instrumented with the
number of attempts made and the log of `time.sleep` calls.  On attempt
`max_retries - 1` (modelled as `remaining = 1`) a failure is re-raised;
earlier failures sleep `delay` seconds and retry; a loop that never
runs falls through to `return None`. -/
def retry_loop {E A : Type} (f : Nat → Except E A) (delay : Nat) :
    Nat → Nat → Option (Except E A) × Nat × List Nat
  | _, 0 => (none, 0, [])
  | attempt, remaining + 1 =>
    match f attempt with
    | Except.ok a => (some (Except.ok a), 1, [])
    | Except.error e =>
      if remaining = 0 then (some (Except.error e), 1, [])
      else
        let rest := retry_loop f delay (attempt + 1) remaining
        (rest.1, rest.2.1 + 1, delay :: rest.2.2)

/-- Embedding of the `retry_on_failure` decorator: run the wrapped
operation up to `max_retries` times total, sleeping `delay` seconds
between consecutive attempts, re-raising the final failure.  Returns
the outcome (`none` models the `return None` fallthrough when
`max_retries = 0`), the number of attempts made and the sleep log. -/
def retry_on_failure {E A : Type} (max_retries delay : Nat)
    (f : Nat → Except E A) : Option (Except E A) × Nat × List Nat :=
  retry_loop f delay 0 max_retries

/-- Embedding of the decorated `fetch_data_with_progress`: the
decorator is applied with the hard-coded arguments
`max_retries=3, delay=2`; the configuration only feeds the request. -/
def fetch_data_with_progress {E : Type} (http : Request → Nat → Except E String)
    (domain : String) (config : Config) :
    Option (Except E (List String)) × Nat × List Nat :=
  retry_on_failure 3 2 (fetch_body http (build_request domain config))

/-- Embedding of `dns_check_domain`: for each subdomain in order the
resolver oracle either raises (modelled as `Except.error`, which the
function does not catch, so it propagates and aborts the whole batch)
or returns the answer list; subdomains with a non-empty answer list are
kept. -/
def dns_check_domain {E A : Type} (resolve : String → Except E (List A)) :
    List String → Except E (List String)
  | [] => Except.ok []
  | d :: rest =>
    match resolve d with
    | Except.error e => Except.error e
    | Except.ok answers =>
      match dns_check_domain resolve rest with
      | Except.error e => Except.error e
      | Except.ok valid =>
        Except.ok (if answers.isEmpty then valid else d :: valid)

/-- A regex-search oracle used to instantiate closed statements whose
filter spec has no regex (the oracle is then never consulted). -/
def re0 : String → String → Bool := fun _ _ => false

/-- An HTTP oracle on which every attempt fails at the transport level;
the error value records the attempt number. -/
def httpFail : Request → Nat → Except Nat String := fun _ n => Except.error n

/-- The default configuration of `load_config`. -/
def cfg0 : Config :=
  ⟨"https://web.archive.org/cdx/search/cdx", "urlkey", 10000, 30, 3, 1,
    "WebArchive-Subdomain-Extractor/1.0"⟩

/-- A configuration whose retry settings differ from the decorator's
hard-coded ones: `max_retries = 5`, `retry_delay = 7`. -/
def cfg5 : Config :=
  ⟨"https://web.archive.org/cdx/search/cdx", "urlkey", 10000, 30, 5, 7,
    "WebArchive-Subdomain-Extractor/1.0"⟩

/-- A resolver oracle on which every lookup raises (NXDOMAIN, timeout,
SERVFAIL and missing records all surface as raised exceptions in
`dns.resolver.resolve`); the payload is an arbitrary error code. -/
def dnsFail : String → Except Nat (List Nat) := fun _ => Except.error 404

/-!  Theorems.  First the infrastructure lemmas about the lexicographic
order, the sort, and the extraction fold; then one theorem (plus
witness or counterexample) per specification claim. -/

theorem chars_le_total (a b : List Char) :
    chars_le a b = true ∨ chars_le b a = true := by
  induction a generalizing b with
  | nil => exact Or.inl rfl
  | cons x as ih =>
    cases b with
    | nil => exact Or.inr rfl
    | cons y bs =>
      by_cases h1 : x.toNat < y.toNat
      · left; simp [chars_le, h1]
      · by_cases h2 : y.toNat < x.toNat
        · right; simp [chars_le, h2]
        · rcases ih bs with ih1 | ih1
          · left; simp [chars_le, h1, h2, ih1]
          · right; simp [chars_le, h1, h2, ih1]

theorem chars_le_trans (a b c : List Char) (hab : chars_le a b = true)
    (hbc : chars_le b c = true) : chars_le a c = true := by
  induction a generalizing b c with
  | nil => rfl
  | cons x as ih =>
    cases b with
    | nil => simp [chars_le] at hab
    | cons y bs =>
      cases c with
      | nil => simp [chars_le] at hbc
      | cons z cs =>
        by_cases h1 : x.toNat < y.toNat <;> by_cases h2 : y.toNat < z.toNat
        · simp [chars_le, Nat.lt_trans h1 h2]
        · by_cases h3 : z.toNat < y.toNat
          · simp [chars_le, h2, h3] at hbc
          · have hxz : x.toNat < z.toNat := by omega
            simp [chars_le, hxz]
        · by_cases h4 : y.toNat < x.toNat
          · simp [chars_le, h1, h4] at hab
          · have hxz : x.toNat < z.toNat := by omega
            simp [chars_le, hxz]
        · by_cases h4 : y.toNat < x.toNat
          · simp [chars_le, h1, h4] at hab
          · by_cases h3 : z.toNat < y.toNat
            · simp [chars_le, h2, h3] at hbc
            · have hn1 : ¬ x.toNat < z.toNat := by omega
              have hn2 : ¬ z.toNat < x.toNat := by omega
              simp only [chars_le, h1, h4, if_neg, if_false] at hab
              simp only [chars_le, h2, h3, if_neg, if_false] at hbc
              simp only [chars_le, hn1, hn2, if_neg, if_false]
              exact ih bs cs (by simpa using hab) (by simpa using hbc)

theorem str_le_total (a b : String) : str_le a b = true ∨ str_le b a = true :=
  chars_le_total a.data b.data

theorem str_le_trans (a b c : String) (hab : str_le a b = true)
    (hbc : str_le b c = true) : str_le a c = true :=
  chars_le_trans a.data b.data c.data hab hbc

theorem perm_ordered_insert (a : String) (l : List String) :
    List.Perm (ordered_insert a l) (a :: l) := by
  induction l with
  | nil => exact List.Perm.refl _
  | cons b l ih =>
    by_cases h : str_le a b = true
    · rw [ordered_insert, if_pos h]
    · rw [ordered_insert, if_neg h]
      exact (ih.cons b).trans (List.Perm.swap a b l)

theorem mem_ordered_insert {a x : String} {l : List String} :
    x ∈ ordered_insert a l ↔ x = a ∨ x ∈ l := by
  rw [(perm_ordered_insert a l).mem_iff, List.mem_cons]

theorem pairwise_ordered_insert (a : String) (l : List String)
    (hl : List.Pairwise (fun x y => str_le x y = true) l) :
    List.Pairwise (fun x y => str_le x y = true) (ordered_insert a l) := by
  induction l with
  | nil => simp [ordered_insert]
  | cons b l ih =>
    rcases List.pairwise_cons.mp hl with ⟨hb, hl2⟩
    by_cases h : str_le a b = true
    · rw [ordered_insert, if_pos h]
      refine List.pairwise_cons.mpr ⟨?_, hl⟩
      intro x hx
      rcases List.mem_cons.mp hx with rfl | hx2
      · exact h
      · exact str_le_trans a b x h (hb x hx2)
    · rw [ordered_insert, if_neg h]
      have hba : str_le b a = true := (str_le_total a b).resolve_left h
      refine List.pairwise_cons.mpr ⟨?_, ih hl2⟩
      intro x hx
      rcases mem_ordered_insert.mp hx with rfl | hx2
      · exact hba
      · exact hb x hx2

theorem perm_sort_strings (l : List String) : List.Perm (sort_strings l) l := by
  induction l with
  | nil => exact List.Perm.refl _
  | cons a l ih => exact (perm_ordered_insert a (sort_strings l)).trans (ih.cons a)

theorem pairwise_sort_strings (l : List String) :
    List.Pairwise (fun x y => str_le x y = true) (sort_strings l) := by
  induction l with
  | nil => exact List.Pairwise.nil
  | cons a l ih => exact pairwise_ordered_insert a (sort_strings l) ih

theorem hostname_of_dot {url s : String} (h : hostname_of url = some s) :
    '.' ∈ s.data := by
  unfold hostname_of at h
  cases hn : urlsplit_netloc url.data with
  | error e => rw [hn] at h; cases h
  | ok netloc =>
    rw [hn] at h
    dsimp only at h
    split at h
    · cases h
      next hc => exact hc.2
    · cases h

theorem mem_extract_step {acc : List String} {u s : String} :
    s ∈ extract_step acc u ↔ s ∈ acc ∨ hostname_of u = some s := by
  unfold extract_step
  cases h : hostname_of u with
  | none => simp
  | some hname =>
    by_cases hm : hname ∈ acc
    · simp only [if_pos hm, Option.some.injEq]
      constructor
      · exact fun hs => Or.inl hs
      · rintro (hs | rfl)
        · exact hs
        · exact hm
    · simp [if_neg hm, List.mem_append, eq_comm]

theorem mem_extract_fold (urls : List String) :
    ∀ (acc : List String) (s : String),
      s ∈ urls.foldl extract_step acc ↔
        s ∈ acc ∨ ∃ u ∈ urls, hostname_of u = some s := by
  induction urls with
  | nil => simp
  | cons u urls ih =>
    intro acc s
    rw [List.foldl_cons, ih, mem_extract_step]
    simp [or_assoc]

theorem nodup_extract_fold (urls : List String) :
    ∀ acc : List String, acc.Nodup → (urls.foldl extract_step acc).Nodup := by
  induction urls with
  | nil => exact fun _ h => h
  | cons u urls ih =>
    intro acc h
    refine ih _ ?_
    unfold extract_step
    cases hostname_of u with
    | none => exact h
    | some hname =>
      dsimp only
      by_cases hm : hname ∈ acc
      · rw [if_pos hm]; exact h
      · rw [if_neg hm]
        simp [List.nodup_append, h, hm]

theorem mem_extract_subdomains {urls : List String} {s : String} :
    s ∈ extract_subdomains urls ↔ ∃ u ∈ urls, hostname_of u = some s := by
  unfold extract_subdomains
  rw [(perm_sort_strings _).mem_iff, mem_extract_fold]
  simp

theorem upper_ascii_ofNat_shift (t : Nat) (h1 : 65 ≤ t) (h2 : t ≤ 90) :
    upper_ascii (Char.ofNat (t + 32)) = false := by
  interval_cases t <;> decide

theorem toLower_not_upper (c : Char) : upper_ascii (Char.toLower c) = false := by
  by_cases h : 65 ≤ c.toNat ∧ c.toNat ≤ 90
  · rw [Char.toLower, if_pos h]
    exact upper_ascii_ofNat_shift c.toNat h.1 h.2
  · rw [Char.toLower, if_neg h]
    exact decide_eq_false h

theorem str_in_lower_eq_false (w s : String)
    (hw : w.data.any upper_ascii = true) :
    str_in w.data (py_lower s).data = false := by
  rw [str_in, decide_eq_false_iff_not]
  intro hinf
  obtain ⟨c, hc, hcu⟩ := List.any_eq_true.mp hw
  obtain ⟨pre, suf, heq⟩ := hinf
  have hdata : (py_lower s).data = s.data.map Char.toLower := rfl
  have hcmem : c ∈ s.data.map Char.toLower := by
    rw [← hdata, ← heq]
    simp [hc]
  obtain ⟨c0, _, hlow⟩ := List.mem_map.mp hcmem
  rw [← hlow, toLower_not_upper] at hcu
  cases hcu

theorem any_filter_upper (s : String) (ws : List String) :
    ws.any (fun w => str_in w.data (py_lower s).data) =
      (ws.filter (fun w => !w.data.any upper_ascii)).any
        (fun w => str_in w.data (py_lower s).data) := by
  induction ws with
  | nil => rfl
  | cons w ws ih =>
    by_cases hw : w.data.any upper_ascii = true
    · simp only [List.any_cons, List.filter_cons, hw, Bool.not_true, if_neg]
      rw [str_in_lower_eq_false w s hw, ih]
      simp
    · have hw2 : w.data.any upper_ascii = false := by
        cases h : w.data.any upper_ascii
        · rfl
        · exact absurd h hw
      simp only [List.any_cons, List.filter_cons, hw2, Bool.not_false, if_pos,
        List.any_cons]
      rw [ih]

theorem any_and_not_isEmpty {α : Type} (l : List α) (g : α → Bool) :
    (!l.isEmpty && l.any g) = l.any g := by
  cases l <;> simp

theorem exclude_blocks_filter_upper (r : Option String) (mn mx : Option Int)
    (ws : List String) (s : String) :
    exclude_blocks ⟨r, mn, mx, some ws⟩ s =
      exclude_blocks ⟨r, mn, mx, some (ws.filter (fun w => !w.data.any upper_ascii))⟩ s := by
  show (!ws.isEmpty && _) = (!(ws.filter _).isEmpty && _)
  rw [any_and_not_isEmpty, any_and_not_isEmpty]
  exact any_filter_upper s ws

theorem retry_loop_all_fail {E A : Type} (f : Nat → Except E A) (err : Nat → E)
    (hf : ∀ n, f n = Except.error (err n)) (delay : Nat) :
    ∀ (remaining attempt : Nat), remaining ≠ 0 →
      retry_loop f delay attempt remaining =
        (some (Except.error (err (attempt + remaining - 1))), remaining,
          List.replicate (remaining - 1) delay) := by
  intro remaining
  induction remaining with
  | zero => intro attempt h; exact absurd rfl h
  | succ r ih =>
    intro attempt _
    rw [retry_loop, hf attempt]
    dsimp only
    by_cases hr : r = 0
    · subst hr; rfl
    · rw [if_neg hr, ih (attempt + 1) hr]
      have h1 : attempt + 1 + r - 1 = attempt + (r + 1) - 1 := by omega
      have h2 : delay :: List.replicate (r - 1) delay = List.replicate (r + 1 - 1) delay := by
        have : r = (r - 1) + 1 := by omega
        rw [this]
        rfl
      rw [h1]
      exact congrArg _ (congrArg _ h2)

theorem fetch_body_all_fail {E : Type} (http : Request → Nat → Except E String)
    (err : Nat → E) (hf : ∀ req n, http req n = Except.error (err n))
    (req : Request) (n : Nat) : fetch_body http req n = Except.error (err n) := by
  rw [fetch_body, hf]

/-- C1: the claim says a hostname whose lookup fails is dropped without
aborting the batch, and that when every lookup fails the stage returns
an empty sequence.  The code has no exception handling around
`dns.resolver.resolve`, so the first raised lookup error propagates and
aborts the whole batch: with a resolver on which every lookup raises,
`dns_check_domain` returns the propagated error, not `ok []`. -/
theorem dns_failure_aborts_batch :
    dns_check_domain dnsFail ["mail.example.com", "www.example.com"] =
      Except.error 404 ∧
    dns_check_domain dnsFail ["mail.example.com", "www.example.com"] ≠
      Except.ok [] := by
  refine ⟨rfl, ?_⟩
  intro h
  exact Except.noConfusion h

/-- C2 counterexample: the claim says extracted hostnames are
case-folded to lowercase and that authorities differing only in case
collapse to one entry.  In the code `parsed.netloc` is added verbatim:
two records whose authorities differ only in case produce two distinct
entries, one of which is not lowercase. -/
theorem extract_subdomains_case_not_folded :
    extract_subdomains ["https://A.example.com/", "https://a.example.com/"] =
      ["A.example.com", "a.example.com"] ∧
    ¬ ∀ s ∈ extract_subdomains ["https://A.example.com/", "https://a.example.com/"],
        py_lower s = s := by
  refine ⟨by decide, by decide⟩

/-- C2 amended: every entry of the extraction output is exactly the
port-stripped authority of some input record, stored verbatim with no
case folding, so authorities differing only in letter case yield
distinct entries. -/
theorem extract_subdomains_verbatim_hostnames :
    (∀ (urls : List String) (s : String),
        s ∈ extract_subdomains urls ↔ ∃ u ∈ urls, hostname_of u = some s) ∧
    extract_subdomains ["https://A.example.com/", "https://a.example.com/"] =
      ["A.example.com", "a.example.com"] :=
  ⟨fun _ _ => mem_extract_subdomains, by decide⟩

/-- C2 amended, witness instance: the membership characterisation
evaluated at a concrete record list. -/
theorem extract_subdomains_verbatim_hostnames_witness :
    "x.y" ∈ extract_subdomains ["https://x.y/"] ↔
      ∃ u ∈ ["https://x.y/"], hostname_of u = some "x.y" :=
  extract_subdomains_verbatim_hostnames.1 ["https://x.y/"] "x.y"

/-- C3 counterexample: the claim says the fetch makes `max_retries`
attempts and sleeps `retry_delay` seconds as given by the options
bundle.  The decorator is applied with hard-coded `max_retries=3,
delay=2`, so with a bundle carrying `max_retries = 5` and
`retry_delay = 7` the all-failing fetch still makes 3 attempts and
sleeps 2 seconds twice. -/
theorem fetch_retry_ignores_options_bundle :
    (fetch_data_with_progress httpFail "example.com" cfg5).2.1 = 3 ∧
    cfg5.max_retries = 5 ∧
    (fetch_data_with_progress httpFail "example.com" cfg5).2.1 ≠ cfg5.max_retries ∧
    (fetch_data_with_progress httpFail "example.com" cfg5).2.2 = [2, 2] ∧
    cfg5.retry_delay = 7 ∧
    ¬ ∀ d ∈ (fetch_data_with_progress httpFail "example.com" cfg5).2.2,
        d = cfg5.retry_delay := by
  refine ⟨rfl, rfl, by decide, rfl, rfl, by decide⟩

/-- C3 amended: for every options bundle, when every attempt fails at
the transport level the fetch makes exactly 3 attempts (the decorator's
hard-coded `max_retries`), sleeps 2 seconds between consecutive
attempts (the hard-coded `delay`, ignoring the bundle's `max_retries`
and `retry_delay`), and re-raises the failure of the final (third)
attempt. -/
theorem fetch_retry_hard_coded_policy {E : Type}
    (http : Request → Nat → Except E String) (domain : String)
    (config : Config) (err : Nat → E)
    (hf : ∀ req n, http req n = Except.error (err n)) :
    fetch_data_with_progress http domain config =
      (some (Except.error (err 2)), 3, [2, 2]) := by
  rw [fetch_data_with_progress, retry_on_failure,
    retry_loop_all_fail _ err
      (fetch_body_all_fail http err hf (build_request domain config)) 2 3 0
      (by decide)]
  exact rfl

/-- C3 amended, witness: the hard-coded retry policy evaluated on a
concrete always-failing transport with the default configuration. -/
theorem fetch_retry_hard_coded_policy_witness :
    fetch_data_with_progress httpFail "example.com" cfg0 =
      (some (Except.error 2), 3, [2, 2]) :=
  fetch_retry_hard_coded_policy httpFail "example.com" cfg0 (fun n => n)
    (fun _ _ => rfl)

/-- C4 counterexample: the claim says filtering
`["a.example.com", "bb.example.com", "ccc.example.com"]` with
`min_length = 16` returns `["ccc.example.com"]`.  The lengths are
13, 14 and 15, all below 16, so nothing survives. -/
theorem filter_min_length_16_not_singleton :
    filter_subdomains re0 ["a.example.com", "bb.example.com", "ccc.example.com"]
        (some ⟨none, some 16, none, none⟩) ≠ ["ccc.example.com"] := by
  decide

/-- C4 amended: with `min_length = 16` the filter returns the empty
list, because the three hostnames have lengths 13, 14 and 15. -/
theorem filter_min_length_16_empty :
    filter_subdomains re0 ["a.example.com", "bb.example.com", "ccc.example.com"]
        (some ⟨none, some 16, none, none⟩) = [] := by
  decide

/-- C5: on the four example records, extraction returns exactly
`["sub1.example.com", "sub2.example.com"]` — the port is stripped, the
malformed line is skipped without aborting, and the duplicate hostname
is collapsed. -/
theorem extract_subdomains_example :
    extract_subdomains ["https://sub1.example.com/page",
        "http://sub1.example.com:8080/x", "not a url",
        "https://sub2.example.com/"] =
      ["sub1.example.com", "sub2.example.com"] := by
  decide

/-- C6: for every input record sequence the extraction output has no
duplicates, is sorted ascending in the lexicographic string order
`str_le` (together with `Nodup` this is strict ascent), and every entry
contains a dot. -/
theorem extract_subdomains_invariants (urls : List String) :
    (extract_subdomains urls).Nodup ∧
    List.Pairwise (fun a b => str_le a b = true) (extract_subdomains urls) ∧
    ∀ s ∈ extract_subdomains urls, '.' ∈ s.data := by
  refine ⟨?_, pairwise_sort_strings _, ?_⟩
  · unfold extract_subdomains
    exact ((perm_sort_strings _).nodup_iff).mpr
      (nodup_extract_fold urls [] List.nodup_nil)
  · intro s hs
    obtain ⟨u, _, hu⟩ := mem_extract_subdomains.mp hs
    exact hostname_of_dot hu

/-- C6 witness: the invariants evaluated at a concrete record list that
mixes malformed entries with valid URLs. -/
theorem extract_subdomains_invariants_witness :
    (extract_subdomains ["https://b.example.com/", "nonsense",
        "https://a.example.com/x"]).Nodup ∧
    List.Pairwise (fun a b => str_le a b = true)
      (extract_subdomains ["https://b.example.com/", "nonsense",
        "https://a.example.com/x"]) ∧
    ∀ s ∈ extract_subdomains ["https://b.example.com/", "nonsense",
        "https://a.example.com/x"], '.' ∈ s.data :=
  extract_subdomains_invariants
    ["https://b.example.com/", "nonsense", "https://a.example.com/x"]

/-- C7: the claim says every string containing a character outside the
domain alphabet is rejected.  The pattern is anchored with `$`, which
in Python also matches just before a single trailing newline, so
`validate_domain "a.com\n"` succeeds and returns the string — newline
included — instead of failing.  The empty string and a 64-character
label are rejected as the claim states. -/
theorem validate_domain_trailing_newline_accepted :
    validate_domain "a.com\n" = Except.ok "a.com\n" ∧
    validate_domain "" = Except.error "" ∧
    validate_domain (String.mk (List.replicate 64 'a') ++ ".com") =
      Except.error (String.mk (List.replicate 64 'a') ++ ".com") :=
  ⟨rfl, rfl, rfl⟩

/-- C8: filtering with an absent spec (`None`, and the falsy empty dict
behaves identically) or with a spec in which every constraint is absent
returns the input unchanged. -/
theorem filter_subdomains_identity (re_search : String → String → Bool)
    (subs : List String) :
    filter_subdomains re_search subs none = subs ∧
    filter_subdomains re_search subs (some ⟨none, none, none, none⟩) = subs := by
  refine ⟨rfl, ?_⟩
  show subs.filter _ = subs
  rw [List.filter_eq_self]
  intro a _
  rfl

/-- C8 witness: the identity law evaluated at a concrete input list. -/
theorem filter_subdomains_identity_witness :
    filter_subdomains re0 ["a.b"] none = ["a.b"] ∧
    filter_subdomains re0 ["a.b"] (some ⟨none, none, none, none⟩) = ["a.b"] :=
  filter_subdomains_identity re0 ["a.b"]

/-- C9: a `min_length` or `max_length` present with value `0` is falsy
in the `filters.get(...)` truthiness test, so it behaves exactly as if
the constraint were absent; in particular `max_length = 0` excludes
nothing. -/
theorem filter_zero_length_bounds_skipped (re_search : String → String → Bool)
    (subs : List String) (r : Option String) (mn mx : Option Int)
    (ex : Option (List String)) :
    filter_subdomains re_search subs (some ⟨r, some 0, mx, ex⟩) =
      filter_subdomains re_search subs (some ⟨r, none, mx, ex⟩) ∧
    filter_subdomains re_search subs (some ⟨r, mn, some 0, ex⟩) =
      filter_subdomains re_search subs (some ⟨r, mn, none, ex⟩) :=
  ⟨rfl, rfl⟩

/-- C9 witness: the zero-valued bounds evaluated at a concrete input. -/
theorem filter_zero_length_bounds_skipped_witness :
    filter_subdomains re0 ["a.b"] (some ⟨none, some 0, none, none⟩) =
      filter_subdomains re0 ["a.b"] (some ⟨none, none, none, none⟩) ∧
    filter_subdomains re0 ["a.b"] (some ⟨none, none, some 0, none⟩) =
      filter_subdomains re0 ["a.b"] (some ⟨none, none, none, none⟩) :=
  filter_zero_length_bounds_skipped re0 ["a.b"] none none none none

/-- C10: each exclusion word is compared verbatim against the
case-folded hostname, so a word containing an ASCII uppercase letter
can never occur in the lowercased hostname and never excludes
anything: dropping all such words from `exclude_words` leaves the
filter output unchanged, and such a word is never a substring of a
lowercased hostname. -/
theorem filter_uppercase_exclude_words_inert :
    (∀ (re_search : String → String → Bool) (subs : List String)
        (r : Option String) (mn mx : Option Int) (ws : List String),
      filter_subdomains re_search subs (some ⟨r, mn, mx, some ws⟩) =
        filter_subdomains re_search subs
          (some ⟨r, mn, mx, some (ws.filter (fun w => !w.data.any upper_ascii))⟩)) ∧
    ∀ (w s : String), w.data.any upper_ascii = true →
      str_in w.data (py_lower s).data = false := by
  constructor
  · intro re_search subs r mn mx ws
    show subs.filter _ = subs.filter _
    apply List.filter_congr
    intro s _
    show passes _ _ s = passes _ _ s
    unfold passes
    rw [exclude_blocks_filter_upper]
    exact rfl
  · exact fun w s hw => str_in_lower_eq_false w s hw

/-- C10 witness: a concrete uppercase exclusion word never occurs in a
concrete lowercased hostname. -/
theorem filter_uppercase_exclude_words_inert_witness :
    "ADMIN".data.any upper_ascii = true ∧
    str_in "ADMIN".data (py_lower "Admin.example.com").data = false :=
  ⟨by decide,
    filter_uppercase_exclude_words_inert.2 "ADMIN" "Admin.example.com" (by decide)⟩

end WebArchive
